import Mathlib

/-!
Verification development for the digxe auto start/claim bot
(`src/main.py`, with the legacy single-account variant `src/bot.py`).

The Python source is shallowly embedded: pure text-scraping helpers become
Lean functions over `List Char`, the process-global mutable `STATE` dict
becomes an explicit `LState` record threaded through the per-account sweep,
HTTP calls become parameters describing the response obtained by each call,
and epoch instants are `Int` milliseconds.
-/

namespace Digxe

/-! ### Character and list utilities (Python `str`/`re` primitives) -/

/-- Python `\s` character class: space, tab, newline, carriage return,
vertical tab, form feed. -/
def pySpace (c : Char) : Bool :=
  c = ' ' || c = '\t' || c = '\n' || c = '\r' || c = Char.ofNat 11 || c = Char.ofNat 12

/-- Leading maximal run of ASCII digits. -/
def takeDigits : List Char → List Char
  | [] => []
  | c :: t => if c.isDigit then c :: takeDigits t else []

/-- Drop the leading maximal run of ASCII digits. -/
def dropDigits : List Char → List Char
  | [] => []
  | c :: t => if c.isDigit then dropDigits t else c :: t

/-- Drop the leading maximal run of Python whitespace (`\s*`). -/
def dropPySpaces : List Char → List Char
  | [] => []
  | c :: t => if pySpace c then dropPySpaces t else c :: t

/-- Whether the second list begins with the first (literal regex fragment). -/
def startsWithL : List Char → List Char → Bool
  | [], _ => true
  | _ :: _, [] => false
  | p :: ps, c :: cs => if p = c then startsWithL ps cs else false

/-- Substring containment, Python `pat in s`. -/
def containsSub (pat : List Char) : List Char → Bool
  | [] => startsWithL pat []
  | c :: t => startsWithL pat (c :: t) || containsSub pat t

/-- Decimal value of a digit list. -/
def natOfDigits (ds : List Char) : Nat :=
  ds.foldl (fun acc c => acc * 10 + (c.toNat - 48)) 0

/-- Python `str.lower`, restricted to the per-character ASCII case map. -/
def lowerL (s : List Char) : List Char := s.map Char.toLower

/-! ### Free-text remaining-duration extractor

Embeds `_parse_remaining_from_text` (src/main.py lines 230-249, identical in
src/bot.py lines 159-177).  `re.search(r"(\d+)\s*hour", t)` finds the leftmost
digit run that, after optional whitespace, is followed by the literal word;
the captured group is that digit run. -/

/-- Leftmost match of the regex `(\d+)\s*word` over the text, returning the
captured integer.  A digit run position only matches when the run, followed
by optional whitespace, is followed by the literal `word`. -/
def findNumBefore (word : List Char) : List Char → Option Nat
  | [] => none
  | c :: t =>
    if c.isDigit then
      if startsWithL word (dropPySpaces (dropDigits (c :: t))) then
        some (natOfDigits (takeDigits (c :: t)))
      else findNumBefore word t
    else findNumBefore word t

/-- Embeds `_parse_remaining_from_text`: lower-case the text, extract the
first integers preceding `hour`, `minute`, `second`; if all three are zero
(also when absent) return `none`, else the total in seconds. -/
def parseRemainingSecs (text : List Char) : Option Nat :=
  if (findNumBefore ("hour".toList) (lowerL text)).getD 0 = 0 ∧
      (findNumBefore ("minute".toList) (lowerL text)).getD 0 = 0 ∧
      (findNumBefore ("second".toList) (lowerL text)).getD 0 = 0 then none
  else some ((findNumBefore ("hour".toList) (lowerL text)).getD 0 * 3600 +
      (findNumBefore ("minute".toList) (lowerL text)).getD 0 * 60 +
      (findNumBefore ("second".toList) (lowerL text)).getD 0)

/-! Spec-side rendering of claim C7 ("returns the sum of the first integer
preceding hour, minute and second; no recognizable quantity yields none"),
to be compared with the embedded `parseRemainingSecs`. -/

/-- Modelled from the claim wording: the sum, in seconds, of the first
integer preceding each unit word in the lower-cased text. -/
def specSumSeconds (text : List Char) : Nat :=
  3600 * (findNumBefore ("hour".toList) (lowerL text)).getD 0 +
    60 * (findNumBefore ("minute".toList) (lowerL text)).getD 0 +
    (findNumBefore ("second".toList) (lowerL text)).getD 0

/-- Modelled from the claim wording: whether any quantity-with-unit was
found in the lower-cased text. -/
def specAnyUnit (text : List Char) : Bool :=
  (findNumBefore ("hour".toList) (lowerL text)).isSome ||
    (findNumBefore ("minute".toList) (lowerL text)).isSome ||
    (findNumBefore ("second".toList) (lowerL text)).isSome

/-- C7 counterexample: on the input `0 hours` a quantity (the integer 0)
precedes the word `hour`, so the claim as stated demands the sum `0`
(a zero duration), but the extractor returns `none`. -/
theorem c7_counterexample :
    ¬ (parseRemainingSecs ("0 hours".toList) =
        if specAnyUnit ("0 hours".toList) then some (specSumSeconds ("0 hours".toList))
        else none) := by
  decide

/-- C7 (amended): the extractor returns the sum of the first integer
preceding `hour`, `minute` and `second` in the lower-cased text, except
that when that sum is zero (in particular when no quantity-with-unit is
found at all, and also when every found quantity is zero) it returns
`none`; the input `Come back in 5 hours 12 minutes` yields 5h12m
(18720 seconds) and an input with no recognizable quantity yields `none`. -/
theorem c7_remaining_text_extractor :
    (∀ text : List Char,
      parseRemainingSecs text =
        if specSumSeconds text = 0 then none else some (specSumSeconds text)) ∧
    parseRemainingSecs ("Come back in 5 hours 12 minutes".toList) = some 18720 ∧
    parseRemainingSecs ("come back later".toList) = none := by
  refine ⟨?_, by decide, by decide⟩
  intro text
  unfold parseRemainingSecs specSumSeconds
  generalize (findNumBefore ("hour".toList) (lowerL text)).getD 0 = h
  generalize (findNumBefore ("minute".toList) (lowerL text)).getD 0 = m
  generalize (findNumBefore ("second".toList) (lowerL text)).getD 0 = s
  by_cases hz : h = 0 ∧ m = 0 ∧ s = 0
  · obtain ⟨h1, h2, h3⟩ := hz
    subst h1; subst h2; subst h3
    simp
  · have hne : ¬ 3600 * h + 60 * m + s = 0 := by omega
    rw [if_neg hz, if_neg hne]
    have hcomm : h * 3600 + m * 60 + s = 3600 * h + 60 * m + s := by ring
    rw [hcomm]

/-! ### Dashboard last-claim timestamp parser

Embeds `_parse_last_claim_time_ms` (src/main.py lines 279-292):
`re.search(r'"lastClaimTime"\s*:\s*(\d{10,13})', text)`, with 10-digit
(seconds) values normalized to milliseconds. -/

/-- The literal key, quotes included. -/
def lastClaimKey : List Char := "\"lastClaimTime\"".toList

/-- Attempt the `"lastClaimTime"\s*:\s*(\d{10,13})` match anchored at the
head of the list; the greedy quantifier captures at most 13 digits and
requires at least 10. -/
def parseLastClaimAt (s : List Char) : Option Int :=
  if startsWithL lastClaimKey s then
    match dropPySpaces (s.drop lastClaimKey.length) with
    | ':' :: r2 =>
      if 10 ≤ (takeDigits (dropPySpaces r2)).length then
        if natOfDigits ((takeDigits (dropPySpaces r2)).take 13) < 10000000000 then
          some ((natOfDigits ((takeDigits (dropPySpaces r2)).take 13) : Int) * 1000)
        else some (natOfDigits ((takeDigits (dropPySpaces r2)).take 13) : Int)
      else none
    | _ => none
  else none

/-- Leftmost-position search for the pattern over the whole text. -/
def parseLastClaimMs : List Char → Option Int
  | [] => none
  | c :: t =>
    match parseLastClaimAt (c :: t) with
    | some v => some v
    | none => parseLastClaimMs t

/-! ### HTTP retry client

Embeds `http_post` (src/main.py lines 187-204): each attempt either raises a
network-level exception or yields a response; 429/503 responses and
exceptions sleep `backoff * attempt` and retry; any other response is
returned at once; exhausting `retries` attempts yields `none`. -/

/-- An HTTP response as the embedding sees it: status code, error/message
body text, the parsed `success` field, and the `Date` header in ms. -/
structure Resp where
  status : Nat
  body : List Char
  success : Bool
  dateMs : Option Int
deriving Repr, DecidableEq

/-- Python `requests.Response.ok`: status below 400. -/
def respOk (r : Resp) : Bool := r.status < 400

/-- Outcome of one attempted POST: a response, or a raised
`requests.RequestException`. -/
inductive HOutcome where
  | resp (r : Resp)
  | netErr
deriving Repr, DecidableEq

/-- The statuses `http_post` treats as retryable (rate limit/maintenance). -/
def isRetryStatus (n : Nat) : Bool := n == 429 || n == 503

/-- An attempt outcome that causes sleep-and-retry. -/
def retryable : HOutcome → Bool
  | HOutcome.netErr => true
  | HOutcome.resp r => isRetryStatus r.status

/-- The retry loop of `http_post`: `out k` is the outcome of attempt `k`
(1-based), `fuel` counts the attempts still allowed.  Returns the delivered
response (or the `none` sentinel) together with the list of sleeps
performed, each `backoff * attempt`. -/
def httpPostGo (out : Nat → HOutcome) (backoff : Nat) : Nat → Nat → Option Resp × List Nat
  | 0, _ => (none, [])
  | fuel + 1, attempt =>
    match out attempt with
    | HOutcome.netErr =>
      ((httpPostGo out backoff fuel (attempt + 1)).1,
        backoff * attempt :: (httpPostGo out backoff fuel (attempt + 1)).2)
    | HOutcome.resp r =>
      if isRetryStatus r.status then
        ((httpPostGo out backoff fuel (attempt + 1)).1,
          backoff * attempt :: (httpPostGo out backoff fuel (attempt + 1)).2)
      else (some r, [])

/-- Embeds `http_post` with its `retries` and `backoff` parameters
(defaults 3 and 3 in the source). -/
def http_post (out : Nat → HOutcome) (retries backoff : Nat) : Option Resp × List Nat :=
  httpPostGo out backoff retries 1

/-- The expected sleep schedule `[b*a, b*(a+1), ...]` of length `n`. -/
def sleepsFrom (b a n : Nat) : List Nat :=
  match n with
  | 0 => []
  | n + 1 => b * a :: sleepsFrom b (a + 1) n

theorem httpPostGo_all_retryable (out : Nat → HOutcome) (b : Nat) :
    ∀ fuel a, (∀ k, a ≤ k → k < a + fuel → retryable (out k) = true) →
      httpPostGo out b fuel a = (none, sleepsFrom b a fuel) := by
  intro fuel
  induction fuel with
  | zero => intro a _; rfl
  | succ f ih =>
    intro a h
    have h0 : retryable (out a) = true := h a le_rfl (by omega)
    have hrec : httpPostGo out b f (a + 1) = (none, sleepsFrom b (a + 1) f) :=
      ih (a + 1) (fun k hk1 hk2 => h k (by omega) (by omega))
    cases ho : out a with
    | netErr =>
      simp only [httpPostGo, ho, hrec, sleepsFrom]
    | resp r =>
      have hr : isRetryStatus r.status = true := by
        rw [ho] at h0; exact h0
      simp only [httpPostGo, ho, hr, if_true, hrec, sleepsFrom]

theorem httpPostGo_first_nonretryable (out : Nat → HOutcome) (b : Nat) (r : Resp) :
    ∀ fuel a, retryable (out a) = false → out a = HOutcome.resp r → 0 < fuel →
      httpPostGo out b fuel a = (some r, []) := by
  intro fuel a hnr ho hf
  cases fuel with
  | zero => omega
  | succ f =>
    have hr : isRetryStatus r.status = false := by
      rw [ho] at hnr; exact hnr
    simp only [httpPostGo, ho, hr]
    rfl

/-- C4: `http_post` retries on 429/503 and network exceptions, sleeping
`backoff * attempt` before each retry; exhausting the `retries` attempts
(default 3) returns the sentinel `none` with the sleep schedule
`backoff*1, ..., backoff*retries`; a response with any other status —
including 4xx other than rate limit — is returned immediately on the first
attempt with no sleep and no retry (a response value, never an exception). -/
theorem c4_http_post_retry_policy :
    (∀ (out : Nat → HOutcome) (b n : Nat),
      (∀ k, 1 ≤ k → k ≤ n → retryable (out k) = true) →
      http_post out n b = (none, sleepsFrom b 1 n)) ∧
    (∀ (out : Nat → HOutcome) (b n : Nat) (r : Resp),
      out 1 = HOutcome.resp r → retryable (HOutcome.resp r) = false → 0 < n →
      http_post out n b = (some r, [])) := by
  constructor
  · intro out b n h
    exact httpPostGo_all_retryable out b n 1 (fun k hk1 hk2 => h k hk1 (by omega))
  · intro out b n r ho hnr hn
    exact httpPostGo_first_nonretryable out b r n 1 (ho ▸ hnr) ho hn

/-- C4 witness: with every attempt rate-limited (status 429) the default
client returns the `none` sentinel after sleeping 3, 6, 9 seconds; with a
first-attempt 404 the response is returned at once with no sleeps. -/
theorem c4_witness :
    http_post (fun _ => HOutcome.resp ⟨429, [], false, none⟩) 3 3 = (none, [3, 6, 9]) ∧
    http_post (fun _ => HOutcome.resp ⟨404, [], false, none⟩) 3 3 =
      (some ⟨404, [], false, none⟩, []) := by
  constructor
  · have h := c4_http_post_retry_policy.1 (fun _ => HOutcome.resp ⟨429, [], false, none⟩)
      3 3 (fun _ _ _ => rfl)
    rw [h]; rfl
  · exact c4_http_post_retry_policy.2 (fun _ => HOutcome.resp ⟨404, [], false, none⟩)
      3 3 ⟨404, [], false, none⟩ rfl (by decide) (by decide)

/-! ### Process-global session record and the start/claim actions

`STATE` (src/main.py lines 71-72) is one module-level dict, read through
`load_state` and written through `save_state` by every account's actions.
The embedding makes it an explicit record threaded through the sweep. -/

/-- The in-memory record: epoch-ms renderings of the `last_start`,
`last_claim` and `last_claim_amount` entries of the global `STATE` dict. -/
structure LState where
  last_start : Option Int
  last_claim : Option Int
  last_claim_amount : Option Int
deriving Repr, DecidableEq

/-- The literal the 400-handler looks for in the lower-cased body. -/
def alreadyActivePat : List Char := "already active".toList

/-- Embeds `start_mining` (src/main.py lines 455-516) over the response the
POST delivered (`none` = sentinel after exhausted retries).  On success the
server `Date` header (fallback: local now) is recorded as `last_start`; on a
400 `already active` rejection the remaining time is parsed from the body
(fallback: the full 24h) and an estimated `last_start` is recorded with the
call reported as success; any other failure leaves the record unchanged. -/
def start_mining (nowMs : Int) (r : Option Resp) (st : LState) : Bool × LState :=
  match r with
  | none => (false, st)
  | some r =>
    if respOk r then
      if r.success then
        (true, ⟨some (r.dateMs.getD nowMs), st.last_claim, st.last_claim_amount⟩)
      else (false, st)
    else
      if r.status = 400 ∧ r.body ≠ [] ∧ containsSub alreadyActivePat (lowerL r.body) = true then
        (true, ⟨some (nowMs + ((parseRemainingSecs r.body).getD 86400 : Int) * 1000 - 86400000),
          st.last_claim, st.last_claim_amount⟩)
      else (false, st)

/-- Embeds `claim` (src/main.py lines 519-554): on a successful response
with `success: true` the claim instant and amount are recorded; any
non-ok status (including 401/403) or unsuccessful body changes nothing. -/
def claimAction (nowMs : Int) (r : Option Resp) (amt : Option Int) (st : LState) :
    Bool × LState :=
  match r with
  | none => (false, st)
  | some r =>
    if respOk r then
      if r.success then (true, ⟨st.last_start, some nowMs, amt⟩)
      else (false, st)
    else (false, st)

/-! ### Per-account deadline resolution and the sweep

Embeds the per-account body of `main`'s while-loop (src/main.py lines
934-1000) and the sleep computation (lines 1002-1017). -/

/-- Deadline resolution for one account (lines 948-971): the dashboard
last-claim timestamp plus 24h when available; otherwise the recorded
`last_start` plus 24h; otherwise a start action is issued and the record it
may have written is used; otherwise the account is skipped this cycle.
Returns (deadline, state after any start action, whether a start was
issued).  `dash` is the text of a successful dashboard fetch. -/
def resolveNext (nowMs : Int) (dash : Option (List Char)) (startResp : Option Resp)
    (st : LState) : Option Int × LState × Bool :=
  match Option.bind dash parseLastClaimMs with
  | some t => (some (t + 86400000), st, false)
  | none =>
    match st.last_start with
    | some ls => (some (ls + 86400000), st, false)
    | none =>
      match start_mining nowMs startResp st with
      | (_, st1) =>
        match st1.last_start with
        | some ls => (some (ls + 86400000), st1, true)
        | none => (none, st1, true)

/-- The network interactions one account's cycle may perform: the responses
each call would deliver, in program order (first-run claim, first-run
start, fallback sync start, due-time claim, post-claim start). -/
structure AccountInput where
  claimResp0 : Option Resp
  claimAmt0 : Option Int
  startResp0 : Option Resp
  dash : Option (List Char)
  startRespSync : Option Resp
  claimRespDue : Option Resp
  claimAmtDue : Option Int
  startRespAfter : Option Resp
deriving Repr, DecidableEq

/-- An account input performing no successful interaction at all. -/
def emptyInput : AccountInput := ⟨none, none, none, none, none, none, none, none⟩

/-- The observable API actions a cycle issues for one account. -/
inductive Act where
  | claimCall
  | startCall
  | dashFetch
deriving Repr, DecidableEq

/-- Number of claim actions in a trace. -/
def countClaims : List Act → Nat
  | [] => 0
  | Act.claimCall :: t => countClaims t + 1
  | _ :: t => countClaims t

/-- The fetch-resolve-act part of one account's cycle (lines 947-1000),
with `pre` the actions already issued before the dashboard fetch: the
deadline is resolved; a due deadline (remaining ≤ 0) triggers a claim and,
on success, a fresh start; a future deadline yields a schedule target. -/
def cycleBody (pre : List Act) (nowMs : Int) (inp : AccountInput) (st : LState) :
    List Act × LState × Option Int :=
  match resolveNext nowMs inp.dash inp.startRespSync st with
  | (dl, st1, didStart) =>
    match dl with
    | none =>
      (pre ++ [Act.dashFetch] ++ (if didStart then [Act.startCall] else []), st1, none)
    | some next =>
      if next - nowMs ≤ 0 then
        match claimAction nowMs inp.claimRespDue inp.claimAmtDue st1 with
        | (true, st2) =>
          (pre ++ [Act.dashFetch] ++ (if didStart then [Act.startCall] else [])
              ++ [Act.claimCall, Act.startCall],
            (start_mining nowMs inp.startRespAfter st2).2, none)
        | (false, st2) =>
          (pre ++ [Act.dashFetch] ++ (if didStart then [Act.startCall] else [])
              ++ [Act.claimCall], st2, none)
      else (pre ++ [Act.dashFetch] ++ (if didStart then [Act.startCall] else []),
        st1, some next)

/-- One account's share of a sweep (lines 934-1000): on the first run an
unconditional claim followed by a start (both before any deadline evidence
is consulted), then the common cycle body. -/
def accountStep (firstRun : Bool) (nowMs : Int) (inp : AccountInput) (st : LState) :
    List Act × LState × Option Int :=
  if firstRun then
    cycleBody [Act.claimCall, Act.startCall] nowMs inp
      ((start_mining nowMs inp.startResp0
        (claimAction nowMs inp.claimResp0 inp.claimAmt0 st).2).2)
  else cycleBody [] nowMs inp st

/-- The sweep over all accounts, threading the single shared record in
program order and computing the earliest candidate wake-up instant (the
candidate for a target is `now + floor(remaining seconds) * 1000`, per the
`int(remaining)` truncation) and the list of targets. -/
def sweepGo (firstRun : Bool) (nowMs : Int) : List AccountInput → LState →
    LState × Option Int × List Int
  | [], st => (st, none, [])
  | inp :: rest, st =>
    match accountStep firstRun nowMs inp st with
    | (_, st1, tgt) =>
      match sweepGo firstRun nowMs rest st1 with
      | (stF, eRest, tRest) =>
        match tgt with
        | none => (stF, eRest, tRest)
        | some next =>
          match eRest with
          | none => (stF, some (nowMs + ((next - nowMs) / 1000) * 1000), next :: tRest)
          | some e => (stF, some (min (nowMs + ((next - nowMs) / 1000) * 1000) e),
              next :: tRest)

/-- The non-live sleep decision (lines 1002-1014), in seconds: 15 minutes
when no account produced a target, otherwise
`max(5, min(ahead_seconds, 15 * 60))` for the earliest candidate. -/
def sleepSecondsNonLive (nowMs : Int) (earliest : Option Int) : Int :=
  match earliest with
  | none => 15 * 60
  | some e => max 5 (min (max 0 (e - nowMs) / 1000) (15 * 60))

/-- One iteration of the main while-loop (state, next `first_run` flag, and
the sleep in seconds taken on the non-live path, `none` when the live
countdown path runs `continue` instead): in live mode with at least one
target the `continue` skips the `first_run = False` reset (lines
1006-1017). -/
def mainIter (live firstRun : Bool) (nowMs : Int) (inps : List AccountInput)
    (st : LState) : LState × Bool × Option Int :=
  match sweepGo firstRun nowMs inps st with
  | (st1, earliest, _) =>
    match earliest with
    | none => (st1, false, some (15 * 60))
    | some e =>
      if live then (st1, firstRun, none)
      else (st1, false, some (sleepSecondsNonLive nowMs (some e)))

/-! ### Claims about the resolver and the actions -/

/-- C1: whenever the dashboard page yields a last-claim timestamp `t`
(normalized to milliseconds by the parser, seconds values scaled by 1000),
the resolved deadline is exactly `t + 86400000` ms, for every local record
content — the server evidence overrides any `last_start` estimate, the
state is left untouched and no fallback start is issued; the local-record
fallback is consulted only when no server timestamp was obtained. -/
theorem c1_server_timestamp_priority :
    (∀ (nowMs t : Int) (text : List Char) (startResp : Option Resp) (st : LState),
      parseLastClaimMs text = some t →
      resolveNext nowMs (some text) startResp st = (some (t + 86400000), st, false)) ∧
    parseLastClaimMs ("\"lastClaimTime\":1700000000".toList) = some 1700000000000 ∧
    parseLastClaimMs ("\"lastClaimTime\":1699913610000".toList) = some 1699913610000 ∧
    (∀ (nowMs : Int) (dash : Option (List Char)) (startResp : Option Resp)
        (st : LState) (ls : Int),
      Option.bind dash parseLastClaimMs = none → st.last_start = some ls →
      resolveNext nowMs dash startResp st = (some (ls + 86400000), st, false)) := by
  refine ⟨?_, by decide, by decide, ?_⟩
  · intro nowMs t text startResp st h
    unfold resolveNext
    simp [h]
  · intro nowMs dash startResp st ls hb hls
    unfold resolveNext
    rw [hb, hls]

/-- C1 witness: a concrete dashboard text resolves to its timestamp plus
24 hours even though a local `last_start` estimate (999) is present. -/
theorem c1_witness :
    resolveNext 0 (some ("\"lastClaimTime\":1699913610000".toList)) none
        ⟨some 999, none, none⟩ =
      (some (1699913610000 + 86400000), ⟨some 999, none, none⟩, false) :=
  c1_server_timestamp_priority.1 0 1699913610000 _ none ⟨some 999, none, none⟩ (by decide)

/-- C6: a 400 response whose body contains `already active` makes
`start_mining` record the estimated `last_start` (now plus the parsed
remaining duration, minus the 24h mining duration; the full 24h when no
quantity parses) and report success; the deadline later derived from that
record, `last_start + 24h`, is exactly now plus the parsed remaining
duration. -/
theorem c6_already_active_success :
    ∀ (nowMs : Int) (st : LState) (r : Resp),
      r.status = 400 → r.body ≠ [] →
      containsSub alreadyActivePat (lowerL r.body) = true →
      start_mining nowMs (some r) st =
        (true, ⟨some (nowMs + ((parseRemainingSecs r.body).getD 86400 : Int) * 1000
          - 86400000), st.last_claim, st.last_claim_amount⟩) ∧
      nowMs + ((parseRemainingSecs r.body).getD 86400 : Int) * 1000 - 86400000 + 86400000
        = nowMs + ((parseRemainingSecs r.body).getD 86400 : Int) * 1000 := by
  intro nowMs st r h400 hne hact
  refine ⟨?_, by ring⟩
  have hok : respOk r = false := by simp [respOk, h400]
  simp [start_mining, hok, h400, hne, hact]

/-- The concrete `already active` rejection used in witnesses: HTTP 400
with the message `already active, come back in 2 hours`. -/
def respActive2h : Resp := ⟨400, "already active, come back in 2 hours".toList, false, none⟩

/-- C6 witness: the 400 `come back in 2 hours` message at a concrete
instant records `last_start = now + 2h - 24h` and reports success, so the
derived deadline is now + 2h. -/
theorem c6_witness :
    start_mining 1700000000000 (some respActive2h) ⟨none, none, none⟩ =
      (true, ⟨some 1699920800000, none, none⟩) := by
  have h := (c6_already_active_success 1700000000000 ⟨none, none, none⟩ respActive2h
    rfl (by decide) (by decide)).1
  rw [h]
  rfl

/-- Concatenation splits the claim count. -/
theorem countClaims_append (a b : List Act) :
    countClaims (a ++ b) = countClaims a + countClaims b := by
  induction a with
  | nil => simp [countClaims]
  | cons c t ih =>
    cases c <;> simp [countClaims, ih]
    omega

/-- A non-first-run cycle issues at most one claim call. -/
theorem countClaims_cycleBody_le (pre : List Act) (nowMs : Int) (inp : AccountInput)
    (st : LState) : countClaims (cycleBody pre nowMs inp st).1 ≤ countClaims pre + 1 := by
  unfold cycleBody
  rcases hres : resolveNext nowMs inp.dash inp.startRespSync st with ⟨dl, st1, b⟩
  cases dl with
  | none => cases b <;> simp [countClaims_append, countClaims]
  | some next =>
    dsimp only
    by_cases hd : next - nowMs ≤ 0
    · rw [if_pos hd]
      rcases hc : claimAction nowMs inp.claimRespDue inp.claimAmtDue st1 with ⟨ok, st2⟩
      cases ok <;> cases b <;> simp [countClaims_append, countClaims]
    · rw [if_neg hd]
      cases b <;> simp [countClaims_append, countClaims]

/-- C8: a 401/403 response makes `start_mining` and `claim` report failure
and leave the session record untouched (the account is skipped for this
cycle with no state to force a retry), and on any non-first-run sweep the
per-account cycle issues at most one claim call — the failed action is
never retried in a tight loop within the cycle. -/
theorem c8_auth_failure_skip :
    (∀ (nowMs : Int) (st : LState) (r : Resp),
      r.status = 401 ∨ r.status = 403 →
      start_mining nowMs (some r) st = (false, st)) ∧
    (∀ (nowMs : Int) (st : LState) (r : Resp) (amt : Option Int),
      r.status = 401 ∨ r.status = 403 →
      claimAction nowMs (some r) amt st = (false, st)) ∧
    (∀ (nowMs : Int) (inp : AccountInput) (st : LState),
      countClaims (accountStep false nowMs inp st).1 ≤ 1) := by
  refine ⟨?_, ?_, ?_⟩
  · intro nowMs st r h
    rcases h with h | h <;> simp [start_mining, respOk, h]
  · intro nowMs st r amt h
    rcases h with h | h <;> simp [claimAction, respOk, h]
  · intro nowMs inp st
    have h := countClaims_cycleBody_le [] nowMs inp st
    simpa [accountStep, countClaims] using h

/-- C8 witness: a concrete 401 start rejection and a 403 claim rejection
both return failure and leave the record unchanged, and a concrete
non-first-run cycle performs at most one claim call. -/
theorem c8_witness :
    start_mining 0 (some ⟨401, [], false, none⟩) ⟨none, none, none⟩ =
      (false, ⟨none, none, none⟩) ∧
    claimAction 0 (some ⟨403, [], false, none⟩) none ⟨none, none, none⟩ =
      (false, ⟨none, none, none⟩) ∧
    countClaims (accountStep false 0 emptyInput ⟨none, none, none⟩).1 ≤ 1 :=
  ⟨c8_auth_failure_skip.1 0 ⟨none, none, none⟩ ⟨401, [], false, none⟩ (Or.inl rfl),
    c8_auth_failure_skip.2.1 0 ⟨none, none, none⟩ ⟨403, [], false, none⟩ none (Or.inr rfl),
    c8_auth_failure_skip.2.2 0 emptyInput ⟨none, none, none⟩⟩

/-! ### Scheduler scenario fixtures -/

/-- Dashboard text whose timestamp is 10 s short of 24 h before the
reference instant 1700000000000 ms. -/
def dashT10 : List Char := "\"lastClaimTime\":1699913610000".toList

/-- As `dashT10` but 20 s. -/
def dashT20 : List Char := "\"lastClaimTime\":1699913620000".toList

/-- As `dashT10` but 5 s. -/
def dashT5 : List Char := "\"lastClaimTime\":1699913605000".toList

/-- An account whose only interaction is a successful dashboard fetch. -/
def inpDash (d : List Char) : AccountInput :=
  ⟨none, none, none, some d, none, none, none, none⟩

/-- C3: in non-live mode a sweep with no resolved deadline sleeps exactly
15 minutes; with an earliest candidate `e` it sleeps
`max(5, min(seconds ahead, 15 minutes))`; for three accounts whose
deadlines are now+10s, now+20s, now+5s the sweep selects now+5s as the
earliest candidate and sleeps exactly 5 ≤ 5 seconds, after which the
now+5s account is due (remaining ≤ 0) while the other two are not. -/
theorem c3_sweep_sleep :
    (∀ nowMs : Int, sleepSecondsNonLive nowMs none = 15 * 60) ∧
    (∀ nowMs e : Int,
      sleepSecondsNonLive nowMs (some e) =
        max 5 (min (max 0 (e - nowMs) / 1000) (15 * 60))) ∧
    sweepGo false 1700000000000 [inpDash dashT10, inpDash dashT20, inpDash dashT5]
        ⟨none, none, none⟩ =
      (⟨none, none, none⟩, some 1700000005000,
        [1700000010000, 1700000020000, 1700000005000]) ∧
    sleepSecondsNonLive 1700000000000 (some 1700000005000) = 5 ∧
    (1700000005000 - (1700000000000 + 5 * 1000) ≤ 0 ∧
      0 < 1700000010000 - (1700000000000 + 5 * 1000) ∧
      0 < 1700000020000 - (1700000000000 + 5 * 1000)) :=
  ⟨fun _ => rfl, fun _ _ => rfl, by decide, by decide, by decide⟩

/-! ### C9: the session record is process-global, not per-account -/

/-- An account whose start action meets the `already active` rejection. -/
def inpA : AccountInput := ⟨none, none, none, none, some respActive2h, none, none, none⟩

/-- C9 counterexample: starting from an empty record, account A's cycle
(start rejected with `already active, come back in 2 hours` at instant 0)
writes `last_start = -79200000` into the single shared record; account B —
whose cycle performs no write at all (its only action is the failed
dashboard fetch) — then resolves its deadline from that very record,
obtaining A's deadline 7200000.  This refutes the claim that an update for
A leaves B's record unchanged and that B's local-record fallback never
reads a record written for A: there is only one record. -/
theorem c9_counterexample :
    accountStep false 0 inpA ⟨none, none, none⟩ =
      ([Act.dashFetch, Act.startCall], ⟨some (-79200000), none, none⟩, some 7200000) ∧
    accountStep false 0 emptyInput ⟨some (-79200000), none, none⟩ =
      ([Act.dashFetch], ⟨some (-79200000), none, none⟩, some 7200000) ∧
    sweepGo false 0 [inpA, emptyInput] ⟨none, none, none⟩ =
      (⟨some (-79200000), none, none⟩, some 7200000, [7200000, 7200000]) :=
  ⟨by decide, by decide, by decide⟩

/-- C9 (amended): session records live in a single process-global store
shared by every configured account: the local-record fallback reads
whatever `last_start` the shared record currently holds, regardless of
which account's action wrote it, and a successful claim action overwrites
the shared `last_claim`/`last_claim_amount` fields that every account's
subsequent cycle reads. -/
theorem c9_shared_record :
    (∀ (nowMs : Int) (startResp : Option Resp) (st : LState) (ls : Int),
      st.last_start = some ls →
      resolveNext nowMs none startResp st = (some (ls + 86400000), st, false)) ∧
    (∀ (nowMs : Int) (st : LState) (r : Resp) (amt : Option Int),
      respOk r = true → r.success = true →
      claimAction nowMs (some r) amt st = (true, ⟨st.last_start, some nowMs, amt⟩)) := by
  constructor
  · intro nowMs startResp st ls hls
    unfold resolveNext
    simp [hls]
  · intro nowMs st r amt hok hsucc
    simp [claimAction, hok, hsucc]

/-- C9 witness: the shared-record fallback and the shared claim write at
concrete inputs. -/
theorem c9_witness :
    resolveNext 5 none none ⟨some 100, none, none⟩ =
      (some (100 + 86400000), ⟨some 100, none, none⟩, false) ∧
    claimAction 7 (some ⟨200, [], true, none⟩) (some 3) ⟨some 100, none, none⟩ =
      (true, ⟨some 100, some 7, some 3⟩) :=
  ⟨c9_shared_record.1 5 none ⟨some 100, none, none⟩ 100 rfl,
    c9_shared_record.2 7 ⟨some 100, none, none⟩ ⟨200, [], true, none⟩ (some 3) rfl rfl⟩

/-! ### C10: first-run behavior and the live-mode `continue` -/

/-- C10: the first sweep does issue, for each account, an unconditional
claim call followed by a start call before the dashboard fetch (first
conjunct: trace `[claim, start, fetch]` even though the deadline turns out
to lie 10 s in the future) — but in live-countdown mode the `continue`
taken when a target exists skips the `first_run = False` reset, so after a
first sweep with a future deadline `first_run` is still true (second
conjunct) and the second sweep repeats the unconditional claim despite a
strictly positive remaining time (third conjunct), contradicting the
claim that from the second sweep onward a claim is attempted only when the
deadline has passed. -/
theorem c10_first_run_live_mode :
    accountStep true 1700000000000 (inpDash dashT10) ⟨none, none, none⟩ =
      ([Act.claimCall, Act.startCall, Act.dashFetch], ⟨none, none, none⟩,
        some 1700000010000) ∧
    mainIter true true 1700000000000 [inpDash dashT10] ⟨none, none, none⟩ =
      (⟨none, none, none⟩, true, none) ∧
    0 < (1700000010000 : Int) - 1700000000000 :=
  ⟨by decide, by decide, by decide⟩

/-! ### Transaction-hash fallback chain

Embeds `_obtain_tx_hash` (src/main.py lines 739-775).  The surrounding
world is a context: the `TX_HASH` environment override (empty string =
unset, values already stripped), the stripped content of `txhash.txt`
(`none` = file absent), the hash a broadcast would yield (`none` = the
broadcaster is unavailable or fails), the `NON_INTERACTIVE` flag and the
operator's prompt answer (`none` = input raised). -/

/-- The world state `_obtain_tx_hash` reads and writes. -/
structure TxCtx where
  envTxHash : String
  fileContent : Option String
  broadcastResult : Option String
  nonInteractive : Bool
  promptInput : Option String
deriving Repr, DecidableEq

/-- The prompt validation of step 4: `0x` head and length at least 66. -/
def promptAccepted (s : String) : Bool :=
  startsWithL ("0x".toList) s.toList && decide (66 ≤ s.length)

/-- Steps 3-4 of the chain, reached only when the override and the cached
file are both empty: broadcast (persisting a fresh hash to the file), then
prompt only if interactive.  The flag records that the broadcast step was
consulted. -/
def obtainAfterFile (ctx : TxCtx) : Option String × TxCtx × Bool :=
  match ctx.broadcastResult with
  | some h => (some h, { ctx with fileContent := some h }, true)
  | none =>
    if ctx.nonInteractive then (none, ctx, true)
    else
      match ctx.promptInput with
      | some s => if promptAccepted s then (some s, ctx, true) else (none, ctx, true)
      | none => (none, ctx, true)

/-- Embeds `_obtain_tx_hash`: environment override, then cached file, then
broadcast (persisted), then prompt.  Returns the hash (if any), the
resulting world, and whether the broadcast step was consulted. -/
def obtainTxHash (ctx : TxCtx) : Option String × TxCtx × Bool :=
  if ctx.envTxHash ≠ "" then (some ctx.envTxHash, ctx, false)
  else
    match ctx.fileContent with
    | some s => if s ≠ "" then (some s, ctx, false) else obtainAfterFile ctx
    | none => obtainAfterFile ctx

theorem obtainTxHash_env (ctx : TxCtx) (he : ctx.envTxHash ≠ "") :
    obtainTxHash ctx = (some ctx.envTxHash, ctx, false) := by
  simp [obtainTxHash, he]

theorem obtainTxHash_file (ctx : TxCtx) (s : String) (he : ctx.envTxHash = "")
    (hf : ctx.fileContent = some s) (hs : s ≠ "") :
    obtainTxHash ctx = (some s, ctx, false) := by
  simp [obtainTxHash, he, hf, hs]

/-- C2: the tx-hash sources are consulted in the order environment
override, cached `txhash.txt`, on-chain broadcast, operator prompt, the
first yielding value winning; the broadcast step is reached only when the
override and the cached file are both empty; a hash obtained by
broadcasting is persisted to the file, and a retry of the same attempt on
the resulting world returns the cached hash without consulting the
broadcast step again — a second on-chain transaction is never sent. -/
theorem c2_tx_hash_chain :
    (∀ ctx : TxCtx, ctx.envTxHash ≠ "" →
      obtainTxHash ctx = (some ctx.envTxHash, ctx, false)) ∧
    (∀ (ctx : TxCtx) (s : String), ctx.envTxHash = "" → ctx.fileContent = some s →
      s ≠ "" → obtainTxHash ctx = (some s, ctx, false)) ∧
    (∀ (ctx : TxCtx) (res : Option String) (ctx2 : TxCtx) (b : Bool),
      obtainTxHash ctx = (res, ctx2, b) → b = true →
      ctx.envTxHash = "" ∧ (ctx.fileContent = none ∨ ctx.fileContent = some "")) ∧
    (∀ (ctx : TxCtx) (h : String), ctx.envTxHash = "" →
      ctx.fileContent = none ∨ ctx.fileContent = some "" →
      ctx.broadcastResult = some h →
      obtainTxHash ctx = (some h, { ctx with fileContent := some h }, true) ∧
      (h ≠ "" → obtainTxHash { ctx with fileContent := some h } =
        (some h, { ctx with fileContent := some h }, false))) ∧
    (∀ ctx : TxCtx, ctx.envTxHash = "" →
      ctx.fileContent = none ∨ ctx.fileContent = some "" →
      ctx.broadcastResult = none → ctx.nonInteractive = true →
      obtainTxHash ctx = (none, ctx, true)) := by
  refine ⟨obtainTxHash_env, obtainTxHash_file, ?_, ?_, ?_⟩
  · intro ctx res ctx2 b hrun hb
    subst hb
    by_cases he : ctx.envTxHash = ""
    · refine ⟨he, ?_⟩
      rcases hf : ctx.fileContent with _ | s
      · left; rfl
      · by_cases hs : s = ""
        · right; rw [hs]
        · exfalso
          rw [obtainTxHash_file ctx s he hf hs] at hrun
          have hfalse : false = true := congrArg (fun p => p.2.2) hrun
          exact Bool.false_ne_true hfalse
    · exfalso
      rw [obtainTxHash_env ctx he] at hrun
      have hfalse : false = true := congrArg (fun p => p.2.2) hrun
      exact Bool.false_ne_true hfalse
  · intro ctx h he hf hb
    constructor
    · rcases hf with hf | hf <;> simp [obtainTxHash, obtainAfterFile, he, hf, hb]
    · intro hne
      simp [obtainTxHash, he, hne]
  · intro ctx he hf hb hni
    rcases hf with hf | hf <;> simp [obtainTxHash, obtainAfterFile, he, hf, hb, hni]

/-- C2 witness: with empty override and file and an available broadcaster,
the first call broadcasts and persists `0xabc`; the retry on the resulting
world returns the cached `0xabc` without broadcasting. -/
theorem c2_witness :
    obtainTxHash ⟨"", none, some "0xabc", true, none⟩ =
      (some "0xabc", ⟨"", some "0xabc", some "0xabc", true, none⟩, true) ∧
    obtainTxHash ⟨"", some "0xabc", some "0xabc", true, none⟩ =
      (some "0xabc", ⟨"", some "0xabc", some "0xabc", true, none⟩, false) := by
  have h := c2_tx_hash_chain.2.2.2.1 ⟨"", none, some "0xabc", true, none⟩ "0xabc"
    rfl (Or.inl rfl) rfl
  exact ⟨h.1, h.2 (by decide)⟩

/-! ### Wallet auto-claim coordinator

Embeds `run_wallet_auto_claim` (src/main.py lines 836-895) from the initial
get-signature on: `info` is the parsed initial signature data (`none` when
the call failed), `r i` the claimable amount of the refreshed signature
before attempt `i` (`none` when the refresh failed), `w i` whether the
withdrawal submission of attempt `i` succeeded. -/

/-- The fields of the get-signature response the coordinator reads. -/
structure WalletInfo where
  remainingWithdrawals : Int
  totalBalance : ℚ
  claimableAmount : ℚ
deriving Repr, DecidableEq

/-- The observable events of one coordinator invocation. -/
inductive WEvent where
  | getSig
  | withdrawEv
  | sleepEv (n : Nat)
deriving Repr, DecidableEq

/-- Number of withdrawal submission attempts in a trace. -/
def countWithdraws : List WEvent → Nat
  | [] => 0
  | WEvent.withdrawEv :: t => countWithdraws t + 1
  | _ :: t => countWithdraws t

/-- Whether a 5-second sleep occurs before the next withdrawal (true when
no further withdrawal occurs at all). -/
def sleepBeforeNextWd : List WEvent → Bool
  | [] => true
  | WEvent.withdrawEv :: _ => false
  | WEvent.sleepEv n :: t => if n = 5 then true else sleepBeforeNextWd t
  | _ :: t => sleepBeforeNextWd t

/-- Every pair of successive withdrawals has a 5-second sleep between. -/
def pauseBetween : List WEvent → Bool
  | [] => true
  | WEvent.withdrawEv :: t => sleepBeforeNextWd t && pauseBetween t
  | _ :: t => pauseBetween t

/-- The `for i in range(to_do)` loop: refresh the signature (stop when it
fails or its claimable amount is ≤ 0), submit the withdrawal (stop on
failure), and sleep `WALLET_AUTO_SLEEP_AFTER_CLAIM_SEC = 5` when another
iteration follows.  `fuel` is the number of iterations left, maintained as
`toDo - i`. -/
def loopFrom (r : Nat → Option ℚ) (w : Nat → Bool) (toDo : Nat) : Nat → Nat → List WEvent
  | 0, _ => []
  | fuel + 1, i =>
    match r i with
    | none => [WEvent.getSig]
    | some c =>
      if c ≤ 0 then [WEvent.getSig]
      else
        if w i then
          if i + 1 < toDo then
            WEvent.getSig :: WEvent.withdrawEv :: WEvent.sleepEv 5 ::
              loopFrom r w toDo fuel (i + 1)
          else WEvent.getSig :: WEvent.withdrawEv :: loopFrom r w toDo fuel (i + 1)
        else [WEvent.getSig, WEvent.withdrawEv]

/-- Embeds `run_wallet_auto_claim` from the initial get-signature on:
quota `min(2, remainingWithdrawals)`, immediate normal stop when the
initial quota or claimable amount is ≤ 0. -/
def runWalletAutoClaim (info : Option WalletInfo) (r : Nat → Option ℚ)
    (w : Nat → Bool) : List WEvent :=
  match info with
  | none => [WEvent.getSig]
  | some inf =>
    if inf.remainingWithdrawals ≤ 0 ∨ inf.claimableAmount ≤ 0 then [WEvent.getSig]
    else
      WEvent.getSig :: loopFrom r w (min 2 inf.remainingWithdrawals.toNat)
        (min 2 inf.remainingWithdrawals.toNat) 0

/-- The server-reported remaining quota of an invocation. -/
def remainingQuota : Option WalletInfo → Nat
  | none => 0
  | some inf => inf.remainingWithdrawals.toNat

theorem countWithdraws_loopFrom_le (r : Nat → Option ℚ) (w : Nat → Bool) (toDo : Nat) :
    ∀ fuel i, countWithdraws (loopFrom r w toDo fuel i) ≤ fuel := by
  intro fuel
  induction fuel with
  | zero => intro i; simp [loopFrom, countWithdraws]
  | succ f ih =>
    intro i
    unfold loopFrom
    cases hr : r i with
    | none => simp [countWithdraws]
    | some c =>
      dsimp only
      by_cases hc : c ≤ 0
      · rw [if_pos hc]; simp [countWithdraws]
      · rw [if_neg hc]
        cases hw : w i with
        | false => simp [countWithdraws]
        | true =>
          by_cases hlt : i + 1 < toDo
          · rw [if_pos hlt]
            have hrec := ih (i + 1)
            simp [countWithdraws]
            omega
          · rw [if_neg hlt]
            have hrec := ih (i + 1)
            simp [countWithdraws]
            omega

theorem pauseBetween_loopFrom (r : Nat → Option ℚ) (w : Nat → Bool) (toDo : Nat) :
    ∀ fuel i, i + fuel = toDo →
      pauseBetween (loopFrom r w toDo fuel i) = true := by
  intro fuel
  induction fuel with
  | zero => intro i _; rfl
  | succ f ih =>
    intro i hinv
    unfold loopFrom
    cases hr : r i with
    | none => rfl
    | some c =>
      dsimp only
      by_cases hc : c ≤ 0
      · rw [if_pos hc]; rfl
      · rw [if_neg hc]
        cases hw : w i with
        | false => rfl
        | true =>
          by_cases hlt : i + 1 < toDo
          · rw [if_pos hlt]
            have hrec := ih (i + 1) (by omega)
            simp [pauseBetween, sleepBeforeNextWd, hrec]
          · rw [if_neg hlt]
            have hf0 : f = 0 := by omega
            subst hf0
            rfl

/-- C5: one coordinator invocation issues at most
`min(2, remainingWithdrawals)` withdrawal submission attempts; an initial
claimable amount ≤ 0 stops the invocation at once with no attempt and no
error; a freshly re-requested claimable amount ≤ 0 before the first
attempt likewise yields zero attempts; and every pair of successive
attempts has the fixed 5-second pause between them. -/
theorem c5_wallet_coordinator :
    (∀ (info : Option WalletInfo) (r : Nat → Option ℚ) (w : Nat → Bool),
      countWithdraws (runWalletAutoClaim info r w) ≤ min 2 (remainingQuota info)) ∧
    (∀ (inf : WalletInfo) (r : Nat → Option ℚ) (w : Nat → Bool),
      inf.claimableAmount ≤ 0 →
      runWalletAutoClaim (some inf) r w = [WEvent.getSig]) ∧
    (∀ (inf : WalletInfo) (r : Nat → Option ℚ) (w : Nat → Bool) (c : ℚ),
      r 0 = some c → c ≤ 0 →
      countWithdraws (runWalletAutoClaim (some inf) r w) = 0) ∧
    (∀ (info : Option WalletInfo) (r : Nat → Option ℚ) (w : Nat → Bool),
      pauseBetween (runWalletAutoClaim info r w) = true) := by
  refine ⟨?_, ?_, ?_, ?_⟩
  · intro info r w
    cases info with
    | none => simp [runWalletAutoClaim, countWithdraws]
    | some inf =>
      unfold runWalletAutoClaim
      dsimp only
      by_cases hstop : inf.remainingWithdrawals ≤ 0 ∨ inf.claimableAmount ≤ 0
      · rw [if_pos hstop]; simp [countWithdraws]
      · rw [if_neg hstop]
        have h1 := countWithdraws_loopFrom_le r w (min 2 inf.remainingWithdrawals.toNat)
          (min 2 inf.remainingWithdrawals.toNat) 0
        simp only [countWithdraws, remainingQuota]
        omega
  · intro inf r w hcl
    unfold runWalletAutoClaim
    dsimp only
    rw [if_pos (Or.inr hcl)]
  · intro inf r w c hr0 hc0
    unfold runWalletAutoClaim
    dsimp only
    by_cases hstop : inf.remainingWithdrawals ≤ 0 ∨ inf.claimableAmount ≤ 0
    · rw [if_pos hstop]; rfl
    · rw [if_neg hstop]
      have hq : 1 ≤ min 2 inf.remainingWithdrawals.toNat := by
        push_neg at hstop
        omega
      obtain ⟨t, ht⟩ : ∃ t, min 2 inf.remainingWithdrawals.toNat = t + 1 :=
        ⟨min 2 inf.remainingWithdrawals.toNat - 1, by omega⟩
      rw [ht]
      unfold loopFrom
      rw [hr0]
      dsimp only
      rw [if_pos hc0]
      rfl
  · intro info r w
    cases info with
    | none => rfl
    | some inf =>
      unfold runWalletAutoClaim
      dsimp only
      by_cases hstop : inf.remainingWithdrawals ≤ 0 ∨ inf.claimableAmount ≤ 0
      · rw [if_pos hstop]; rfl
      · rw [if_neg hstop]
        have h := pauseBetween_loopFrom r w (min 2 inf.remainingWithdrawals.toNat)
          (min 2 inf.remainingWithdrawals.toNat) 0 (by omega)
        simpa [pauseBetween] using h

/-- C5 witness: an initial claimable of 0 stops at once; a quota of 2 with
a fresh claimable of 0 before the first attempt yields zero withdrawal
attempts; and a concrete full two-attempt run has the 5-second pause
between its two attempts. -/
theorem c5_witness :
    runWalletAutoClaim (some ⟨3, 10, 0⟩) (fun _ => some 1) (fun _ => true) =
      [WEvent.getSig] ∧
    countWithdraws (runWalletAutoClaim (some ⟨3, 10, 5⟩) (fun _ => some 0)
      (fun _ => true)) = 0 ∧
    pauseBetween (runWalletAutoClaim (some ⟨3, 10, 5⟩) (fun _ => some 1)
      (fun _ => true)) = true :=
  ⟨c5_wallet_coordinator.2.1 ⟨3, 10, 0⟩ (fun _ => some 1) (fun _ => true) le_rfl,
    c5_wallet_coordinator.2.2.1 ⟨3, 10, 5⟩ (fun _ => some 0) (fun _ => true) 0 rfl le_rfl,
    c5_wallet_coordinator.2.2.2 (some ⟨3, 10, 5⟩) (fun _ => some 1) (fun _ => true)⟩

end Digxe
